import Mathlib

/-!
Verification development for the `stream-haven-downloads` Tauri host process
(`src-tauri/src/lib.rs`).  The five frontend commands (`get_app_info`,
`validate_url`, `get_storage_info`, `clear_storage`, `download_file`) are
embedded as pure Lean functions.  The third-party URL parser (`url::Url::parse`)
is treated as an abstract function `String → Option ParsedUrl` supplying the
scheme and host components the code inspects; the standard-library hash map is
modelled by an association list whose insert replaces the value at an existing
key; the wall clock (`chrono::Utc::now().timestamp_millis()`, an `i64`) and the
mutex acquisition outcome are explicit parameters.
-/

namespace StreamHaven

/-- Result of `url::Url::parse`: the components `validate_url` inspects.
`host` is `none` when the URL has no host component (`host_str()` returns
`None`). -/
structure ParsedUrl where
  scheme : String
  host : Option String
deriving DecidableEq, Repr

/-- The `blocked_hosts` array of `validate_url` (lib.rs lines 86-89). -/
def blocked_hosts : List String :=
  ["localhost", "127.0.0.1", "0.0.0.0", "::1",
   "10.0.0.0", "172.16.0.0", "192.168.0.0", "169.254.0.0"]

/-- Rust `str::starts_with` on the character sequences of the two strings. -/
def starts_with (s pre : String) : Bool :=
  pre.data.isPrefixOf s.data

/-- Rust `str::to_lowercase`, character by character. -/
def to_lowercase (s : String) : String :=
  ⟨s.data.map Char.toLower⟩

/-- The body of the `for blocked in &blocked_hosts` loop (lib.rs lines 92-96):
true when some blocked literal equals the hostname or is a text prefix of
it (every match returns the one same error, so the loop is a disjunction). -/
def host_is_blocked (hostname : String) : Bool :=
  blocked_hosts.any fun blocked => hostname == blocked || starts_with hostname blocked

/-- Embedding of `validate_url` (lib.rs lines 77-102), with the `url` crate's parser
abstracted as `parse`. -/
def validate_url (parse : String → Option ParsedUrl) (url : String) : Except String Bool :=
  match parse url with
  | some parsed_url =>
    if !(["http", "https"].contains parsed_url.scheme) then
      Except.error "Only HTTP and HTTPS protocols are allowed"
    else
      let hostname := to_lowercase (parsed_url.host.getD "")
      if host_is_blocked hostname then
        Except.error "Access to localhost and internal networks is not allowed"
      else
        Except.ok true
  | none => Except.error "Invalid URL format"

/-- Embedding of `DownloadInfo` (lib.rs lines 54-61). -/
structure DownloadInfo where
  id : String
  url : String
  filename : String
  status : String
  progress : Float

/-- The `downloads: HashMap<String, DownloadInfo>` of `AppState`, modelled as
an association list; `mapInsert` below realises the hash map's
replace-on-duplicate-key insert. -/
abbrev Downloads := List (String × DownloadInfo)

/-- Model of `HashMap::insert`: replace the value at an existing key, otherwise add
the new binding. -/
def mapInsert (m : Downloads) (k : String) (v : DownloadInfo) : Downloads :=
  match m with
  | [] => [(k, v)]
  | (k', v') :: rest => if k' = k then (k, v) :: rest else (k', v') :: mapInsert rest k v

/-- Model of `HashMap::get`: the value bound to a key, if any. -/
def mapFind (m : Downloads) (k : String) : Option DownloadInfo :=
  match m with
  | [] => none
  | (k', v') :: rest => if k' = k then some v' else mapFind rest k

/-- The key set of the map model. -/
def mapKeys (m : Downloads) : List String :=
  m.map fun p => p.1

/-- Everything a `download_file` call produces: the command's return value,
the downloads map after the call, and the log lines emitted. -/
structure DlResult where
  result : Except String String
  downloads : Downloads
  logs : List String

/-- Embedding of `download_file` (lib.rs lines 126-149).  Here `now_millis` is the value of
`chrono::Utc::now().timestamp_millis()` during the call and `lock_ok` is
whether `state.downloads.lock()` succeeds (it fails only if the mutex is
poisoned). -/
def download_file (parse : String → Option ParsedUrl) (url filename : String)
    (now_millis : Int) (lock_ok : Bool) (downloads : Downloads) : DlResult :=
  match validate_url parse url with
  | Except.error e => ⟨Except.error e, downloads, []⟩
  | Except.ok _ =>
    let download_id := "download_" ++ toString now_millis
    if lock_ok then
      ⟨Except.ok download_id,
       mapInsert downloads download_id
         ⟨download_id, url, filename, "pending", 0.0⟩,
       ["Download queued: " ++ download_id]⟩
    else
      ⟨Except.error "Failed to lock downloads", downloads, []⟩

/-- A `serde_json::Value` as far as this program builds them. -/
inductive Json where
  | str (s : String)
  | num (n : Int)
  | bool (b : Bool)
  | obj (fields : List (String × Json))

/-- Embedding of `get_app_info` (lib.rs lines 65-73); the five `env!` compile-time
constants are parameters since `Cargo.toml` fixes them at build time. -/
def get_app_info (name version description authors homepage : String) :
    Except String Json :=
  Except.ok (Json.obj
    [("name", Json.str name),
     ("version", Json.str version),
     ("description", Json.str description),
     ("authors", Json.str authors),
     ("homepage", Json.str homepage)])

/-- Embedding of `get_storage_info` (lib.rs lines 106-114). -/
def get_storage_info : Except String Json :=
  Except.ok (Json.obj
    [("used", Json.num 0),
     ("available", Json.num (1024 * 1024 * 100)),
     ("total", Json.num (1024 * 1024 * 100)),
     ("quota_exceeded", Json.bool false)])

/-- Embedding of `clear_storage` (lib.rs lines 118-122): the result and the log lines it
emits. -/
def clear_storage : Except String Unit × List String :=
  (Except.ok (), ["Storage cleared"])

/-- One invocation arriving over the command bridge (lib.rs lines 37-43). -/
inductive Cmd where
  | get_app_info
  | validate_url (url : String)
  | get_storage_info
  | clear_storage
  | download_file (url : String) (filename : String)

/-- Ambient facts of one command invocation: the URL parser, the wall clock
reading, and whether the downloads mutex can be acquired. -/
structure Env where
  parse : String → Option ParsedUrl
  now_millis : Int
  lock_ok : Bool

/-- Effect of one command on the shared downloads map: only `download_file`
touches it. -/
def step (env : Env) (cmd : Cmd) (s : Downloads) : Downloads :=
  match cmd with
  | Cmd.download_file url filename =>
      (download_file env.parse url filename env.now_millis env.lock_ok s).downloads
  | _ => s

/-- Every record in the store has a URL the Network-Destination Guard
approved. -/
def StoreInv (parse : String → Option ParsedUrl) (s : Downloads) : Prop :=
  ∀ k r, mapFind s k = some r → validate_url parse r.url = Except.ok true

/-- A sequence of `download_file` calls, each with its own clock reading and
lock outcome. -/
def run_calls (parse : String → Option ParsedUrl) :
    List (String × String × Int × Bool) → Downloads → Downloads
  | [], s => s
  | (url, filename, t, lk) :: rest, s =>
      run_calls parse rest (download_file parse url filename t lk s).downloads

/-- A concrete URL-parser instance used to evaluate the theorems on the
spec's example URLs (the components `url::Url::parse` yields for them). -/
def parse1 : String → Option ParsedUrl := fun s =>
  if s = "http://localhost.example.com/" then some ⟨"http", some "localhost.example.com"⟩
  else if s = "http://10.1.2.3/" then some ⟨"http", some "10.1.2.3"⟩
  else if s = "https://example.com/file" then some ⟨"https", some "example.com"⟩
  else if s = "ftp://example.com/" then some ⟨"ftp", some "example.com"⟩
  else none

/-- A concrete invocation environment: the parser above, clock reading 0,
mutex acquisition succeeding. -/
def env1 : Env := ⟨parse1, 0, true⟩

/-- A concrete URL-parser instance for `http://192.168.0.55/` (the
components `url::Url::parse` yields for it). -/
def parse2 : String → Option ParsedUrl := fun s =>
  if s = "http://192.168.0.55/" then some ⟨"http", some "192.168.0.55"⟩
  else none

/-! ### Map model lemmas -/

theorem mapFind_mapInsert_self (m : Downloads) (k : String) (v : DownloadInfo) :
    mapFind (mapInsert m k v) k = some v := by
  induction m with
  | nil => simp [mapInsert, mapFind]
  | cons p rest ih =>
    obtain ⟨k', v'⟩ := p
    by_cases h : k' = k
    · simp [mapInsert, mapFind, h]
    · simp [mapInsert, mapFind, h, ih]

theorem mapInsert_cons_eq (k0 : String) (v0 : DownloadInfo) (rest : Downloads)
    (k : String) (v : DownloadInfo) (h : k0 = k) :
    mapInsert ((k0, v0) :: rest) k v = (k, v) :: rest := by
  simp [mapInsert, h]

theorem mapInsert_cons_ne (k0 : String) (v0 : DownloadInfo) (rest : Downloads)
    (k : String) (v : DownloadInfo) (h : k0 ≠ k) :
    mapInsert ((k0, v0) :: rest) k v = (k0, v0) :: mapInsert rest k v := by
  simp [mapInsert, h]

theorem mapFind_mapInsert_ne (m : Downloads) (k k' : String) (v : DownloadInfo)
    (h : k' ≠ k) : mapFind (mapInsert m k v) k' = mapFind m k' := by
  induction m with
  | nil =>
    simp only [mapInsert, mapFind]
    rw [if_neg (fun hh => h hh.symm)]
  | cons p rest ih =>
    obtain ⟨k0, v0⟩ := p
    by_cases h0 : k0 = k
    · rw [mapInsert_cons_eq k0 v0 rest k v h0]
      subst h0
      simp only [mapFind]
      rw [if_neg (fun hh => h hh.symm), if_neg (fun hh => h hh.symm)]
    · rw [mapInsert_cons_ne k0 v0 rest k v h0]
      by_cases h1 : k0 = k'
      · simp [mapFind, h1]
      · simp [mapFind, h1, ih]

theorem mem_mapKeys_mapInsert (m : Downloads) (k k' : String) (v : DownloadInfo)
    (h : k' ∈ mapKeys (mapInsert m k v)) : k' = k ∨ k' ∈ mapKeys m := by
  induction m with
  | nil => simpa [mapInsert, mapKeys] using h
  | cons p rest ih =>
    obtain ⟨k0, v0⟩ := p
    by_cases h0 : k0 = k
    · subst h0
      simpa [mapInsert, mapKeys] using h
    · simp only [mapInsert, if_neg h0, mapKeys, List.map_cons, List.mem_cons] at h
      rcases h with h | h
      · exact Or.inr (by simp [mapKeys, h])
      · rcases ih h with h1 | h1
        · exact Or.inl h1
        · exact Or.inr (by simp [mapKeys] at h1 ⊢; exact Or.inr h1)

theorem mapKeys_mapInsert_nodup (m : Downloads) (k : String) (v : DownloadInfo)
    (h : (mapKeys m).Nodup) : (mapKeys (mapInsert m k v)).Nodup := by
  induction m with
  | nil => simp [mapInsert, mapKeys]
  | cons p rest ih =>
    obtain ⟨k0, v0⟩ := p
    simp only [mapKeys, List.map_cons, List.nodup_cons] at h
    obtain ⟨hk0, hrest⟩ := h
    by_cases h0 : k0 = k
    · rw [mapInsert_cons_eq k0 v0 rest k v h0]
      subst h0
      simp only [mapKeys, List.map_cons, List.nodup_cons]
      exact ⟨hk0, hrest⟩
    · rw [mapInsert_cons_ne k0 v0 rest k v h0]
      simp only [mapKeys, List.map_cons, List.nodup_cons]
      refine ⟨fun hmem => ?_, ih hrest⟩
      rcases mem_mapKeys_mapInsert rest k k0 v hmem with h1 | h1
      · exact h0 h1
      · exact hk0 h1

/-! ### Network-Destination Guard lemmas -/

theorem host_is_blocked_iff (hostname : String) :
    host_is_blocked hostname = true ↔
      ∃ b ∈ blocked_hosts, hostname = b ∨ starts_with hostname b = true := by
  simp [host_is_blocked, List.any_eq_true, Bool.or_eq_true, beq_iff_eq]

theorem validate_url_parse_none (parse : String → Option ParsedUrl) (url : String)
    (h : parse url = none) :
    validate_url parse url = Except.error "Invalid URL format" := by
  unfold validate_url
  rw [h]

theorem validate_url_parse_some (parse : String → Option ParsedUrl) (url : String)
    (p : ParsedUrl) (h : parse url = some p) :
    validate_url parse url =
      (if !(["http", "https"].contains p.scheme) then
        Except.error "Only HTTP and HTTPS protocols are allowed"
      else if host_is_blocked (to_lowercase (p.host.getD "")) then
        Except.error "Access to localhost and internal networks is not allowed"
      else
        Except.ok true) := by
  unfold validate_url
  rw [h]

theorem validate_url_ok_imp_true (parse : String → Option ParsedUrl) (url : String)
    (b : Bool) (h : validate_url parse url = Except.ok b) : b = true := by
  rcases hp : parse url with _ | p
  · rw [validate_url_parse_none parse url hp] at h
    exact Except.noConfusion h
  · rw [validate_url_parse_some parse url p hp] at h
    split at h
    · exact Except.noConfusion h
    · split at h
      · exact Except.noConfusion h
      · injection h with h1
        exact h1.symm

theorem download_file_downloads_cases (parse : String → Option ParsedUrl)
    (url filename : String) (t : Int) (lk : Bool) (s : Downloads) :
    (download_file parse url filename t lk s).downloads = s ∨
    (download_file parse url filename t lk s).downloads =
      mapInsert s ("download_" ++ toString t)
        ⟨"download_" ++ toString t, url, filename, "pending", 0.0⟩ := by
  unfold download_file
  rcases hv : validate_url parse url with e | b
  · exact Or.inl rfl
  · cases lk
    · exact Or.inl rfl
    · exact Or.inr rfl

/-! ### Decimal string representation is injective

`download_file` builds identifiers as `"download_" ++ toString now_millis`;
the distinct-identifier property needs injectivity of the decimal rendering
of `Int` (Rust's `Display` for `i64`, Lean's `toString`). -/

theorem digitChar_inj10 {a b : Nat} (ha : a < 10) (hb : b < 10)
    (h : Nat.digitChar a = Nat.digitChar b) : a = b := by
  have key : ∀ x y : Fin 10, Nat.digitChar x.val = Nat.digitChar y.val → x = y := by decide
  have := key ⟨a, ha⟩ ⟨b, hb⟩ h
  exact congrArg Fin.val this

theorem digitChar_ne_dash {a : Nat} (ha : a < 10) : Nat.digitChar a ≠ '-' := by
  have key : ∀ x : Fin 10, Nat.digitChar x.val ≠ '-' := by decide
  exact key ⟨a, ha⟩

theorem toDigitsCore_eq10 :
    ∀ (f n : Nat) (l : List Char), n ≠ 0 → n < f →
      Nat.toDigitsCore 10 f n l = ((Nat.digits 10 n).map Nat.digitChar).reverse ++ l := by
  intro f
  induction f with
  | zero => exact fun n l _ hf => absurd hf (Nat.not_lt_zero n)
  | succ f ih =>
    intro n l hn hf
    rw [Nat.digits_def' (b := 10) (by norm_num) (Nat.pos_of_ne_zero hn)]
    by_cases h0 : n / 10 = 0
    · simp [Nat.toDigitsCore, h0]
    · have hdiv : n / 10 < n := Nat.div_lt_self (Nat.pos_of_ne_zero hn) (by norm_num)
      have hlt : n / 10 < f := by omega
      simp only [Nat.toDigitsCore, if_neg h0]
      rw [ih (n / 10) (Nat.digitChar (n % 10) :: l) h0 hlt]
      simp

theorem toDigits10_eq (n : Nat) :
    Nat.toDigits 10 n =
      if n = 0 then ['0'] else ((Nat.digits 10 n).map Nat.digitChar).reverse := by
  by_cases h : n = 0
  · subst h
    decide
  · rw [Nat.toDigits, toDigitsCore_eq10 (n + 1) n [] h (Nat.lt_succ_self n),
      List.append_nil, if_neg h]

theorem repr_data_eq (n : Nat) :
    (Nat.repr n).data =
      if n = 0 then ['0'] else ((Nat.digits 10 n).map Nat.digitChar).reverse := by
  show (List.asString (Nat.toDigits 10 n)).data = _
  rw [show ∀ l : List Char, (List.asString l).data = l from fun _ => rfl]
  exact toDigits10_eq n

theorem map_digitChar_injOn :
    ∀ l1 l2 : List Nat, (∀ x ∈ l1, x < 10) → (∀ x ∈ l2, x < 10) →
      l1.map Nat.digitChar = l2.map Nat.digitChar → l1 = l2 := by
  intro l1
  induction l1 with
  | nil =>
    intro l2 _ _ h
    cases l2 with
    | nil => rfl
    | cons b t2 => exact absurd h (by simp)
  | cons a t ih =>
    intro l2 h1 h2 h
    cases l2 with
    | nil => exact absurd h (by simp)
    | cons b t2 =>
      simp only [List.map_cons, List.cons.injEq] at h
      obtain ⟨hab, ht⟩ := h
      have ha := h1 a (List.mem_cons_self a t)
      have hb := h2 b (List.mem_cons_self b t2)
      have heq := digitChar_inj10 ha hb hab
      have htl := ih t2 (fun x hx => h1 x (List.mem_cons_of_mem a hx))
        (fun x hx => h2 x (List.mem_cons_of_mem b hx)) ht
      rw [heq, htl]

theorem rev_map_digits_ne_singleton_zero {n : Nat} (hn : n ≠ 0) :
    ((Nat.digits 10 n).map Nat.digitChar).reverse ≠ ['0'] := by
  intro h
  have h2 : (Nat.digits 10 n).map Nat.digitChar = ['0'] := by
    have := congrArg List.reverse h
    simpa using this
  have h3 : Nat.digits 10 n = [0] := by
    apply map_digitChar_injOn (Nat.digits 10 n) [0]
      (fun x hx => Nat.digits_lt_base (by norm_num) hx) (by simp)
    rw [h2]
    decide
  have h4 := Nat.ofDigits_digits 10 n
  rw [h3] at h4
  simp [Nat.ofDigits] at h4
  exact hn h4.symm

theorem dash_not_mem_repr (n : Nat) : '-' ∉ (Nat.repr n).data := by
  rw [repr_data_eq]
  by_cases h : n = 0
  · rw [if_pos h]
    decide
  · rw [if_neg h]
    intro hmem
    rw [List.mem_reverse] at hmem
    obtain ⟨d, hd, hEq⟩ := List.mem_map.mp hmem
    exact digitChar_ne_dash (Nat.digits_lt_base (by norm_num) hd) hEq

theorem nat_repr_inj {m n : Nat} (h : Nat.repr m = Nat.repr n) : m = n := by
  have hd : (Nat.repr m).data = (Nat.repr n).data := congrArg String.data h
  rw [repr_data_eq, repr_data_eq] at hd
  by_cases hm : m = 0 <;> by_cases hn : n = 0
  · rw [hm, hn]
  · rw [if_pos hm, if_neg hn] at hd
    exact absurd hd.symm (rev_map_digits_ne_singleton_zero hn)
  · rw [if_neg hm, if_pos hn] at hd
    exact absurd hd (rev_map_digits_ne_singleton_zero hm)
  · rw [if_neg hm, if_neg hn] at hd
    have h1 := List.reverse_injective hd
    have h2 := map_digitChar_injOn _ _
      (fun x hx => Nat.digits_lt_base (by norm_num) hx)
      (fun x hx => Nat.digits_lt_base (by norm_num) hx) h1
    exact Nat.digits_inj_iff.mp h2

theorem int_toString_ofNat (m : Nat) : toString (Int.ofNat m) = Nat.repr m := rfl

theorem int_toString_negSucc (m : Nat) :
    toString (Int.negSucc m) = "-" ++ Nat.repr (m + 1) := rfl

theorem int_toString_inj {a b : Int} (h : toString a = toString b) : a = b := by
  cases a with
  | ofNat m =>
    cases b with
    | ofNat n =>
      rw [int_toString_ofNat, int_toString_ofNat] at h
      exact congrArg Int.ofNat (nat_repr_inj h)
    | negSucc n =>
      rw [int_toString_ofNat, int_toString_negSucc] at h
      exfalso
      apply dash_not_mem_repr m
      rw [congrArg String.data h, String.data_append]
      exact List.mem_append_left _ (by decide)
  | negSucc m =>
    cases b with
    | ofNat n =>
      rw [int_toString_negSucc, int_toString_ofNat] at h
      exfalso
      apply dash_not_mem_repr n
      rw [← congrArg String.data h, String.data_append]
      exact List.mem_append_left _ (by decide)
    | negSucc n =>
      rw [int_toString_negSucc, int_toString_negSucc] at h
      have hd := congrArg String.data h
      rw [String.data_append, String.data_append] at hd
      have h2 := List.append_cancel_left hd
      have h3 := nat_repr_inj (String.ext h2)
      have h4 : m = n := by omega
      rw [h4]

theorem download_id_inj {t1 t2 : Int}
    (h : "download_" ++ toString t1 = "download_" ++ toString t2) : t1 = t2 := by
  apply int_toString_inj
  have hd := congrArg String.data h
  rw [String.data_append, String.data_append] at hd
  exact String.ext (List.append_cancel_left hd)

theorem download_file_ok_eq (parse : String → Option ParsedUrl)
    (url filename : String) (t : Int) (s : Downloads)
    (hok : validate_url parse url = Except.ok true) :
    download_file parse url filename t true s =
      ⟨Except.ok ("download_" ++ toString t),
       mapInsert s ("download_" ++ toString t)
         ⟨"download_" ++ toString t, url, filename, "pending", 0.0⟩,
       ["Download queued: " ++ ("download_" ++ toString t)]⟩ := by
  unfold download_file
  rw [hok]
  rfl

/-! ### Claim theorems -/

/-- C1: for every URL string that parses with scheme http or https,
`validate_url` fails with exactly "Access to localhost and internal networks
is not allowed" precisely when the lower-cased host component is equal to, or
is a string-prefix extension of, one of the blocked literals, and succeeds
with `true` for any other host. -/
theorem validate_url_blocked_host_iff (parse : String → Option ParsedUrl)
    (url : String) (p : ParsedUrl) (hp : parse url = some p)
    (hs : p.scheme = "http" ∨ p.scheme = "https") :
    (validate_url parse url =
        Except.error "Access to localhost and internal networks is not allowed" ↔
      ∃ b ∈ blocked_hosts, to_lowercase (p.host.getD "") = b ∨
        starts_with (to_lowercase (p.host.getD "")) b = true) ∧
    (validate_url parse url = Except.ok true ↔
      ¬ ∃ b ∈ blocked_hosts, to_lowercase (p.host.getD "") = b ∨
        starts_with (to_lowercase (p.host.getD "")) b = true) := by
  rw [validate_url_parse_some parse url p hp]
  have hcontains : (["http", "https"].contains p.scheme) = true := by
    rcases hs with h | h <;> simp [List.contains, List.elem, h]
  rw [hcontains]
  simp only [Bool.not_true, Bool.false_eq_true, if_false]
  cases hb : host_is_blocked (to_lowercase (p.host.getD "")) with
  | false =>
    simp only [Bool.false_eq_true, if_false]
    constructor
    · constructor
      · intro h
        exact absurd h (by simp)
      · intro hex
        have := (host_is_blocked_iff (to_lowercase (p.host.getD ""))).mpr hex
        rw [hb] at this
        exact absurd this (by simp)
    · constructor
      · intro _ hex
        have := (host_is_blocked_iff (to_lowercase (p.host.getD ""))).mpr hex
        rw [hb] at this
        exact absurd this (by simp)
      · intro _
        trivial
  | true =>
    simp only [if_true]
    constructor
    · constructor
      · intro _
        exact (host_is_blocked_iff (to_lowercase (p.host.getD ""))).mp hb
      · intro _
        trivial
    · constructor
      · intro h
        exact absurd h (by simp)
      · intro hcontra
        exact absurd ((host_is_blocked_iff (to_lowercase (p.host.getD ""))).mp hb) hcontra

/-- C1 witness: `http://localhost.example.com/` is rejected with the
blocked-host error while `http://10.1.2.3/` is accepted. -/
theorem validate_url_blocked_host_iff_witness :
    validate_url parse1 "http://localhost.example.com/" =
      Except.error "Access to localhost and internal networks is not allowed" ∧
    validate_url parse1 "http://10.1.2.3/" = Except.ok true := by
  constructor
  · exact ((validate_url_blocked_host_iff parse1 "http://localhost.example.com/"
      ⟨"http", some "localhost.example.com"⟩ (by decide) (Or.inl rfl)).1).mpr
      ⟨"localhost", by decide, Or.inr (by decide)⟩
  · exact ((validate_url_blocked_host_iff parse1 "http://10.1.2.3/"
      ⟨"http", some "10.1.2.3"⟩ (by decide) (Or.inl rfl)).2).mpr (by decide)

/-- C1 counterexample: contrary to the claim's example list, the host
`192.168.0.55` is accepted — `validate_url` returns `Ok(true)` on
`http://192.168.0.55/` — because `192.168.0.55` equals none of the blocked
literals and is not a string-prefix extension of `192.168.0.0` (its eleventh
character is `5`, the literal's is `0`) or of any other literal. -/
theorem validate_url_blocked_host_counterexample :
    validate_url parse2 "http://192.168.0.55/" = Except.ok true ∧
    starts_with (to_lowercase "192.168.0.55") "192.168.0.0" = false :=
  ⟨rfl, by decide⟩

/-- C2: when the Network-Destination Guard fails on the URL, `download_file`
returns exactly the guard's error string, leaves the downloads map
unchanged, and emits no log line. -/
theorem download_file_guard_error (parse : String → Option ParsedUrl)
    (url filename : String) (now_millis : Int) (lock_ok : Bool) (s : Downloads)
    (e : String) (h : validate_url parse url = Except.error e) :
    download_file parse url filename now_millis lock_ok s =
      ⟨Except.error e, s, []⟩ := by
  unfold download_file
  rw [h]

/-- C2 witness: queueing a download of a blocked URL propagates the guard's
error and inserts nothing. -/
theorem download_file_guard_error_witness :
    download_file parse1 "http://localhost.example.com/" "f.bin" 0 true [] =
      ⟨Except.error "Access to localhost and internal networks is not allowed", [], []⟩ :=
  download_file_guard_error parse1 "http://localhost.example.com/" "f.bin" 0 true []
    "Access to localhost and internal networks is not allowed" (by rfl)

/-- C5: a URL that parses with a scheme other than http and https is
rejected with exactly "Only HTTP and HTTPS protocols are allowed". -/
theorem validate_url_bad_scheme (parse : String → Option ParsedUrl)
    (url : String) (p : ParsedUrl) (hp : parse url = some p)
    (h1 : p.scheme ≠ "http") (h2 : p.scheme ≠ "https") :
    validate_url parse url =
      Except.error "Only HTTP and HTTPS protocols are allowed" := by
  rw [validate_url_parse_some parse url p hp]
  have e1 : (p.scheme == "http") = false := by simp [h1]
  have e2 : (p.scheme == "https") = false := by simp [h2]
  have hcontains : (["http", "https"].contains p.scheme) = false := by
    simp [List.contains, List.elem, e1, e2]
  rw [hcontains]
  rfl

/-- C5 witness: `ftp://example.com/` is rejected with the scheme error. -/
theorem validate_url_bad_scheme_witness :
    validate_url parse1 "ftp://example.com/" =
      Except.error "Only HTTP and HTTPS protocols are allowed" :=
  validate_url_bad_scheme parse1 "ftp://example.com/" ⟨"ftp", some "example.com"⟩
    (by decide) (by decide) (by decide)

/-- C6: a string the parser rejects fails with exactly "Invalid URL format";
a well-formed public https URL with host example.com yields `true`; and every
`validate_url` call ends in exactly one of these four outcomes: `true`, the
format error, the scheme error, or the blocked-host error. -/
theorem validate_url_outcomes (parse : String → Option ParsedUrl) :
    (∀ url, parse url = none →
      validate_url parse url = Except.error "Invalid URL format") ∧
    (∀ url, parse url = some ⟨"https", some "example.com"⟩ →
      validate_url parse url = Except.ok true) ∧
    (∀ url,
      validate_url parse url = Except.ok true ∨
      validate_url parse url = Except.error "Invalid URL format" ∨
      validate_url parse url = Except.error "Only HTTP and HTTPS protocols are allowed" ∨
      validate_url parse url =
        Except.error "Access to localhost and internal networks is not allowed") := by
  refine ⟨fun url h => validate_url_parse_none parse url h, fun url h => ?_, fun url => ?_⟩
  · rw [validate_url_parse_some parse url ⟨"https", some "example.com"⟩ h]
    rfl
  · rcases hp : parse url with _ | p
    · exact Or.inr (Or.inl (validate_url_parse_none parse url hp))
    · rw [validate_url_parse_some parse url p hp]
      split
      · exact Or.inr (Or.inr (Or.inl rfl))
      · split
        · exact Or.inr (Or.inr (Or.inr rfl))
        · exact Or.inl rfl

/-- C6 witness: "not a url" fails with the format error and
`https://example.com/file` returns `true`. -/
theorem validate_url_outcomes_witness :
    validate_url parse1 "not a url" = Except.error "Invalid URL format" ∧
    validate_url parse1 "https://example.com/file" = Except.ok true := by
  have h := validate_url_outcomes parse1
  exact ⟨h.1 "not a url" (by decide), h.2.1 "https://example.com/file" (by decide)⟩

/-- C3: under a guard-approved URL and a successfully acquired lock,
`download_file` returns the identifier `"download_" ++ <millis>`, stores a
record under it with that url, filename, status "pending" and progress 0.0,
and two successive calls at distinct millisecond timestamps yield two
distinct identifiers with both records present afterwards. -/
theorem download_file_two_calls (parse : String → Option ParsedUrl)
    (url filename : String) (t1 t2 : Int) (s : Downloads)
    (hok : validate_url parse url = Except.ok true) (hne : t1 ≠ t2) :
    (download_file parse url filename t1 true s).result =
      Except.ok ("download_" ++ toString t1) ∧
    mapFind (download_file parse url filename t1 true s).downloads
        ("download_" ++ toString t1) =
      some ⟨"download_" ++ toString t1, url, filename, "pending", 0.0⟩ ∧
    "download_" ++ toString t1 ≠ "download_" ++ toString t2 ∧
    (download_file parse url filename t2 true
        (download_file parse url filename t1 true s).downloads).result =
      Except.ok ("download_" ++ toString t2) ∧
    mapFind (download_file parse url filename t2 true
        (download_file parse url filename t1 true s).downloads).downloads
        ("download_" ++ toString t2) =
      some ⟨"download_" ++ toString t2, url, filename, "pending", 0.0⟩ ∧
    mapFind (download_file parse url filename t2 true
        (download_file parse url filename t1 true s).downloads).downloads
        ("download_" ++ toString t1) =
      some ⟨"download_" ++ toString t1, url, filename, "pending", 0.0⟩ := by
  have hid : "download_" ++ toString t1 ≠ "download_" ++ toString t2 :=
    fun hcontra => hne (download_id_inj hcontra)
  rw [download_file_ok_eq parse url filename t1 s hok]
  rw [download_file_ok_eq parse url filename t2 _ hok]
  refine ⟨rfl, mapFind_mapInsert_self _ _ _, hid, rfl, mapFind_mapInsert_self _ _ _, ?_⟩
  rw [mapFind_mapInsert_ne _ _ _ _ hid]
  exact mapFind_mapInsert_self _ _ _

/-- C3 witness: two calls at timestamps 0 and 1 produce distinct identifiers
and the first record is still present after the second call. -/
theorem download_file_two_calls_witness :
    mapFind (download_file parse1 "http://10.1.2.3/" "f.bin" 1 true
        (download_file parse1 "http://10.1.2.3/" "f.bin" 0 true []).downloads).downloads
        ("download_" ++ toString (0 : Int)) =
      some ⟨"download_" ++ toString (0 : Int), "http://10.1.2.3/", "f.bin", "pending", 0.0⟩ ∧
    "download_" ++ toString (0 : Int) ≠ "download_" ++ toString (1 : Int) := by
  have h := download_file_two_calls parse1 "http://10.1.2.3/" "f.bin" 0 1 []
    (by rfl) (by decide)
  exact ⟨h.2.2.2.2.2, h.2.2.1⟩

/-- C4: every command preserves the invariant that each stored record's URL
passed the Network-Destination Guard, and no command ever removes a record
from the store. -/
theorem step_preserves_guard_invariant (env : Env) (cmd : Cmd) (s : Downloads)
    (hinv : StoreInv env.parse s) :
    StoreInv env.parse (step env cmd s) ∧
    ∀ k, (mapFind s k).isSome = true → (mapFind (step env cmd s) k).isSome = true := by
  cases cmd with
  | get_app_info => exact ⟨hinv, fun _ hk => hk⟩
  | validate_url url => exact ⟨hinv, fun _ hk => hk⟩
  | get_storage_info => exact ⟨hinv, fun _ hk => hk⟩
  | clear_storage => exact ⟨hinv, fun _ hk => hk⟩
  | download_file url filename =>
    rcases hv : validate_url env.parse url with e | b
    · have hstep : step env (Cmd.download_file url filename) s = s := by
        show (download_file env.parse url filename env.now_millis env.lock_ok s).downloads = s
        unfold download_file
        rw [hv]
      rw [hstep]
      exact ⟨hinv, fun _ hk => hk⟩
    · have hb := validate_url_ok_imp_true env.parse url b hv
      subst hb
      cases hlk : env.lock_ok with
      | false =>
        have hstep : step env (Cmd.download_file url filename) s = s := by
          show (download_file env.parse url filename env.now_millis env.lock_ok s).downloads = s
          unfold download_file
          rw [hv, hlk]
          rfl
        rw [hstep]
        exact ⟨hinv, fun _ hk => hk⟩
      | true =>
        have hstep : step env (Cmd.download_file url filename) s =
            mapInsert s ("download_" ++ toString env.now_millis)
              ⟨"download_" ++ toString env.now_millis, url, filename, "pending", 0.0⟩ := by
          show (download_file env.parse url filename env.now_millis env.lock_ok s).downloads = _
          unfold download_file
          rw [hv, hlk]
          rfl
        rw [hstep]
        constructor
        · intro k r hfind
          by_cases hk : k = "download_" ++ toString env.now_millis
          · subst hk
            rw [mapFind_mapInsert_self] at hfind
            injection hfind with hr
            rw [← hr]
            exact hv
          · rw [mapFind_mapInsert_ne _ _ _ _ hk] at hfind
            exact hinv k r hfind
        · intro k hk
          by_cases hkk : k = "download_" ++ toString env.now_millis
          · subst hkk
            rw [mapFind_mapInsert_self]
            rfl
          · rw [mapFind_mapInsert_ne _ _ _ _ hkk]
            exact hk

/-- C4 witness: after queueing a download in an empty store, the invariant
instance for the inserted record says its URL passed the guard. -/
theorem step_preserves_guard_invariant_witness :
    validate_url parse1 "http://10.1.2.3/" = Except.ok true := by
  have h := (step_preserves_guard_invariant env1
    (Cmd.download_file "http://10.1.2.3/" "f.bin") []
    (fun _ _ hfind => Option.noConfusion hfind)).1
  exact h ("download_" ++ toString (0 : Int))
    ⟨"download_" ++ toString (0 : Int), "http://10.1.2.3/", "f.bin", "pending", 0.0⟩
    (by rfl)

/-- C7: `get_storage_info` always succeeds with the constant snapshot
used 0, available and total 104857600, quota_exceeded false, and its
command step never changes the shared store. -/
theorem get_storage_info_constant :
    get_storage_info = Except.ok (Json.obj
      [("used", Json.num 0), ("available", Json.num 104857600),
       ("total", Json.num 104857600), ("quota_exceeded", Json.bool false)]) ∧
    ∀ env s, step env Cmd.get_storage_info s = s :=
  ⟨rfl, fun _ _ => rfl⟩

/-- C8: `clear_storage` always succeeds with no returned value, leaves the
shared store untouched, and its only effect is the log line
"Storage cleared". -/
theorem clear_storage_noop :
    clear_storage = (Except.ok (), ["Storage cleared"]) ∧
    ∀ env s, step env Cmd.clear_storage s = s :=
  ⟨rfl, fun _ _ => rfl⟩

/-- C9: `get_app_info` never fails, returns exactly the five build-time
constants, and its command step neither reads nor changes the shared
store. -/
theorem get_app_info_constant (name version description authors homepage : String) :
    get_app_info name version description authors homepage =
      Except.ok (Json.obj
        [("name", Json.str name), ("version", Json.str version),
         ("description", Json.str description), ("authors", Json.str authors),
         ("homepage", Json.str homepage)]) ∧
    ∀ env s, step env Cmd.get_app_info s = s :=
  ⟨rfl, fun _ _ => rfl⟩

/-- C10: a second `download_file` call in the same millisecond silently
replaces the earlier record under the shared identifier (the insert still
succeeds), and after any sequence of `download_file` calls the store holds
at most one record per distinct identifier. -/
theorem download_file_duplicate_id (parse : String → Option ParsedUrl)
    (url1 fn1 url2 fn2 : String) (t : Int) (s : Downloads)
    (h1 : validate_url parse url1 = Except.ok true)
    (h2 : validate_url parse url2 = Except.ok true) :
    (download_file parse url2 fn2 t true
        (download_file parse url1 fn1 t true s).downloads).result =
      Except.ok ("download_" ++ toString t) ∧
    mapFind (download_file parse url2 fn2 t true
        (download_file parse url1 fn1 t true s).downloads).downloads
        ("download_" ++ toString t) =
      some ⟨"download_" ++ toString t, url2, fn2, "pending", 0.0⟩ ∧
    ∀ calls s0, (mapKeys s0).Nodup →
      (mapKeys (run_calls parse calls s0)).Nodup := by
  rw [download_file_ok_eq parse url1 fn1 t s h1]
  rw [download_file_ok_eq parse url2 fn2 t _ h2]
  refine ⟨rfl, mapFind_mapInsert_self _ _ _, ?_⟩
  intro calls
  induction calls with
  | nil => exact fun s0 h => h
  | cons c rest ih =>
    intro s0 h
    obtain ⟨u, f, tt, lk⟩ := c
    show (mapKeys (run_calls parse rest
      (download_file parse u f tt lk s0).downloads)).Nodup
    apply ih
    rcases download_file_downloads_cases parse u f tt lk s0 with hc | hc
    · rw [hc]
      exact h
    · rw [hc]
      exact mapKeys_mapInsert_nodup s0 _ _ h

/-- C10 witness: two same-millisecond calls: the single stored record under
the shared identifier carries the second call's url and filename. -/
theorem download_file_duplicate_id_witness :
    mapFind (download_file parse1 "http://10.1.2.3/" "g.bin" 7 true
        (download_file parse1 "https://example.com/file" "f.bin" 7 true []).downloads).downloads
        ("download_" ++ toString (7 : Int)) =
      some ⟨"download_" ++ toString (7 : Int), "http://10.1.2.3/", "g.bin", "pending", 0.0⟩ :=
  (download_file_duplicate_id parse1 "https://example.com/file" "f.bin"
    "http://10.1.2.3/" "g.bin" 7 [] (by rfl) (by rfl)).2.1

end StreamHaven
